import Mathlib

/-!
Verification of the subtitle reflow engine (`subtitle_linter.py`).

Text is modelled as `List Char` (one Python `str` code point per element),
millisecond times as `Int`, and Python `float` arithmetic as exact `Rat`
arithmetic.  Every definition is a direct translation of the corresponding
Python function; names follow the source.
-/

set_option maxRecDepth 10000

/-- Whitespace characters recognised by Python `str.split()` / `str.strip()`. -/
def pySpace (c : Char) : Bool :=
  c = ' ' ∨ c = '\t' ∨ c = '\n' ∨ c = '\r' ∨ c = '\x0b' ∨ c = '\x0c'

/-- Split a list at every element satisfying `p`, keeping empty chunks
(the behaviour of Python `str.split('\n')`).  Never returns `[]`. -/
def splitP (p : Char → Bool) : List Char → List (List Char)
  | [] => [[]]
  | c :: cs =>
    if p c then [] :: splitP p cs
    else
      match splitP p cs with
      | [] => [[c]]
      | w :: ws => (c :: w) :: ws

/-- Python `text.split()` : split on whitespace runs, dropping empty chunks. -/
def pySplit (t : List Char) : List (List Char) :=
  (splitP pySpace t).filter (fun w => ¬ w.isEmpty)

/-- Python `text.split('\n')` (used by `Subtitle.lines`). -/
def pyLines (t : List Char) : List (List Char) :=
  splitP (fun c => c = '\n') t

/-- Python `' '.join(ws)`. -/
def joinSp : List (List Char) → List Char
  | [] => []
  | [w] => w
  | w :: v :: ws => w ++ ' ' :: joinSp (v :: ws)

/-- Python `'\n'.join(ws)`. -/
def joinNl : List (List Char) → List Char
  | [] => []
  | [w] => w
  | w :: v :: ws => w ++ '\n' :: joinNl (v :: ws)

/-- Python `' '.join(text.split())` — whitespace normalisation. -/
def pyNormalize (t : List Char) : List Char :=
  joinSp (pySplit t)

/-- Python `text.strip()`. -/
def pyStrip (t : List Char) : List Char :=
  ((t.dropWhile pySpace).reverse.dropWhile pySpace).reverse

/-- Python `text.rstrip()`. -/
def pyRStrip (t : List Char) : List Char :=
  (t.reverse.dropWhile pySpace).reverse

/-- Python `text.lstrip()`. -/
def pyLStrip (t : List Char) : List Char :=
  t.dropWhile pySpace

/-- Python `text.strip(set)` for an explicit character set. -/
def pyStripSet (s : List Char) (t : List Char) : List Char :=
  ((t.dropWhile (· ∈ s)).reverse.dropWhile (· ∈ s)).reverse

/-- Python `text.rstrip(set)` for an explicit character set. -/
def pyRStripSet (s : List Char) (t : List Char) : List Char :=
  (t.reverse.dropWhile (· ∈ s)).reverse

/-- Python `str.lower()` restricted to ASCII (all relevant source text is ASCII). -/
def pyLower (t : List Char) : List Char :=
  t.map Char.toLower

/-- Python `int(q)` on a float value, modelled on `Rat`: truncation toward
zero (`Int.tdiv`; the denominator of a `Rat` is positive). -/
def ratTrunc (q : Rat) : Int :=
  q.num.tdiv (q.den : Int)

/-- Python `a % b` on floats for `b > 0`, modelled on `Rat`. -/
def pyFMod (a b : Rat) : Rat :=
  a - b * ⌊a / b⌋

section splitLemmas

theorem splitP_ne_nil (p : Char → Bool) (t : List Char) : splitP p t ≠ [] := by
  induction t with
  | nil => simp [splitP]
  | cons c cs ih =>
    unfold splitP
    by_cases h : p c
    · simp [h]
    · simp only [h]
      cases hs : splitP p cs with
      | nil => simp
      | cons w ws => simp

/-- Every chunk produced by `splitP` is free of separator characters. -/
theorem splitP_chunks (p : Char → Bool) (t : List Char) :
    ∀ w ∈ splitP p t, ∀ c ∈ w, p c = false := by
  induction t with
  | nil => intro w hw c hc; simp [splitP] at hw; subst hw; simp at hc
  | cons a as ih =>
    intro w hw c hc
    unfold splitP at hw
    by_cases h : p a
    · simp [h] at hw
      rcases hw with hw | hw
      · subst hw; simp at hc
      · exact ih w hw c hc
    · simp only [h] at hw
      cases hs : splitP p as with
      | nil => exact absurd hs (splitP_ne_nil p as)
      | cons v vs =>
        rw [hs] at hw
        simp at hw
        rcases hw with hw | hw
        · subst hw
          simp at hc
          rcases hc with hc | hc
          · subst hc; simpa using h
          · exact ih v (by rw [hs]; exact List.mem_cons_self _ _) c hc
        · exact ih w (by rw [hs]; exact List.mem_cons_of_mem _ hw) c hc

theorem splitP_append_sep (p : Char → Bool) (a b : List Char) (c : Char)
    (ha : ∀ x ∈ a, p x = false) (hc : p c = true) :
    splitP p (a ++ c :: b) = a :: splitP p b := by
  induction a with
  | nil => simp [splitP, hc]
  | cons x xs ih =>
    have hx : p x = false := ha x (List.mem_cons_self _ _)
    have hxs : ∀ y ∈ xs, p y = false := fun y hy => ha y (List.mem_cons_of_mem _ hy)
    simp only [List.cons_append]
    unfold splitP
    rw [ih hxs]
    simp only [hx, Bool.false_eq_true, if_false]
    rw [splitP.eq_def]

theorem splitP_no_sep (p : Char → Bool) (a : List Char)
    (ha : ∀ x ∈ a, p x = false) : splitP p a = [a] := by
  induction a with
  | nil => simp [splitP]
  | cons x xs ih =>
    have hx : p x = false := ha x (List.mem_cons_self _ _)
    have hxs : ∀ y ∈ xs, p y = false := fun y hy => ha y (List.mem_cons_of_mem _ hy)
    unfold splitP
    rw [ih hxs]
    simp [hx]

/-- Chunks of `pySplit` are nonempty and whitespace-free. -/
theorem pySplit_chunks (t : List Char) :
    ∀ w ∈ pySplit t, w ≠ [] ∧ ∀ c ∈ w, pySpace c = false := by
  intro w hw
  unfold pySplit at hw
  rw [List.mem_filter] at hw
  refine ⟨by simpa using hw.2, fun c hc => splitP_chunks pySpace t w hw.1 c hc⟩

end splitLemmas

/-! ## Configuration constants (module-level constants in the source) -/

def MAX_CHARS_PER_LINE : Nat := 42

def MAX_CHARS_PER_BLOCK : Nat := 84

def MAX_DURATION_SEC : Rat := 8

def MIN_DURATION_SEC : Rat := 5 / 6

def MIN_WORDS_PER_LINE : Nat := 2

def MIN_CHARS_PER_LINE : Nat := 15

/-- Source name `MIN_CHAR_RATIO` (value 0.30); suffixed here to keep
identifier endings uniform with the other ratio constants. -/
def MIN_CHAR_RATIO_C : Rat := 3 / 10

def MIN_GAP_BETWEEN_SUBS : Rat := 1 / 20

/-- `PAUSE_WEIGHTS` minus the `'...'` entry, which the source handles
separately in `estimate_punctuation_pauses`. -/
def PAUSE_WEIGHTS_1 : List (Char × Rat) :=
  [(',', 1/4), (';', 7/20), (':', 3/10), ('.', 3/5), ('?', 3/5), ('!', 3/5),
   ('—', 2/5), ('-', 3/20)]

/-- Weight of the `'...'` key of `PAUSE_WEIGHTS`. -/
def ELLIPSIS_PAUSE : Rat := 4 / 5

def HESITATION_MARKERS : List (List Char) :=
  [ "uh".data, "um".data, "er".data, "ah".data, "eh".data, "mm".data, "hmm".data ]

def HESITATION_PAUSE : Rat := 1 / 5

def STANDALONE_INTERJECTIONS : List (List Char) :=
  [ "yeah".data, "yes".data, "no".data, "okay".data, "ok".data, "right".data,
    "sure".data, "exactly".data, "totally".data, "absolutely".data,
    "definitely".data, "wow".data, "nice".data, "great".data, "mm-hmm".data,
    "uh-huh".data, "nope".data, "yep".data, "huh".data, "oh".data, "well".data ]

def SPLIT_AFTER_PUNCTUATION : List Char := ['.', '?', '!', ':', ';', ',', '—']

def SPLIT_BEFORE_ADVERSATIVE : List (List Char) :=
  [ "but".data, "however".data, "although".data, "though".data, "yet".data,
    "still".data ]

def SPLIT_BEFORE_COORDINATING : List (List Char) :=
  [ "and".data, "or".data, "so".data, "because".data, "since".data,
    "while".data, "as".data ]

def SPLIT_BEFORE_RELATIVE : List (List Char) :=
  [ "which".data, "that".data, "where".data, "when".data, "who".data,
    "whom".data, "whose".data, "if".data ]

/-! ## Data model -/

/-- The `Subtitle` dataclass. -/
structure Subtitle where
  index : Int
  start_ms : Int
  end_ms : Int
  text : List Char
deriving DecidableEq, Repr

/-- `Subtitle.duration_sec` : `(end_ms - start_ms) / 1000`. -/
def Subtitle.duration_sec (s : Subtitle) : Rat :=
  ((s.end_ms - s.start_ms : Int) : Rat) / 1000

/-- `Subtitle.char_count` : `len(text.replace('\n', ''))`. -/
def Subtitle.char_count (s : Subtitle) : Nat :=
  (s.text.filter (fun c => c ≠ '\n')).length

/-! ## Prosody estimator -/

def isAsciiAlpha (c : Char) : Bool :=
  ('a' ≤ c ∧ c ≤ 'z') ∨ ('A' ≤ c ∧ c ≤ 'Z')

def isAsciiDigit (c : Char) : Bool :=
  '0' ≤ c ∧ c ≤ '9'

/-- Regex `\w` word characters (`[a-zA-Z0-9_]`), for `\b` boundaries. -/
def isWordChar (c : Char) : Bool :=
  isAsciiAlpha c ∨ isAsciiDigit c ∨ c = '_'

/-- `count_syllables` (the vowel-group fallback used when `pyphen` is absent). -/
def count_syllables (word : List Char) : Nat :=
  let w := (pyLower word).filter isAsciiAlpha
  if w.isEmpty then 0
  else
    let step := fun (acc : Nat × Bool) (c : Char) =>
      let is_vowel : Bool := decide (c ∈ ['a', 'e', 'i', 'o', 'u', 'y'])
      ((if is_vowel ∧ ¬ acc.2 then acc.1 + 1 else acc.1), is_vowel)
    let count : Nat := (w.foldl step (0, false)).1
    let count2 : Nat :=
      if w.getLast? = some 'e' ∧ 1 < count then count - 1 else count
    max 1 count2

/-- `count_text_syllables` : sum over the `[a-zA-Z]+` runs of the text. -/
def count_text_syllables (t : List Char) : Nat :=
  let words := (splitP (fun c => ¬ isAsciiAlpha c) t).filter (fun w => ¬ w.isEmpty)
  (words.map count_syllables).sum

/-- Count non-overlapping occurrences of `'...'` left to right
(Python `text.count('...')`); fuel-driven structural recursion. -/
def countEllipses : Nat → List Char → Nat
  | 0, _ => 0
  | f+1, '.' :: '.' :: '.' :: rest => 1 + countEllipses f rest
  | f+1, _ :: rest => countEllipses f rest
  | _+1, [] => 0

/-- Python `text.replace('...', '')`. -/
def removeEllipses : Nat → List Char → List Char
  | 0, l => l
  | f+1, '.' :: '.' :: '.' :: rest => removeEllipses f rest
  | f+1, c :: rest => c :: removeEllipses f rest
  | _+1, [] => []

/-- `estimate_punctuation_pauses`. -/
def estimate_punctuation_pauses (t : List Char) : Rat :=
  let ellipsis_count := countEllipses t.length t
  let text_no_ellipsis := removeEllipses t.length t
  (ellipsis_count : Rat) * ELLIPSIS_PAUSE
    + (PAUSE_WEIGHTS_1.map
        (fun pw => (text_no_ellipsis.count pw.1 : Rat) * pw.2)).sum

/-- Right word boundary of regex `\b` after a match of `m` at the head of `l`. -/
def boundaryAfterOk (m l : List Char) : Bool :=
  match l.drop m.length with
  | [] => true
  | d :: _ => ¬ isWordChar d

/-- Occurrences of whole word `m` (regex `\b m \b`) in `t`;
`prevW` records whether the previous character was a word character. -/
def countWordOcc (m : List Char) : Bool → List Char → Nat
  | _, [] => 0
  | prevW, c :: rest =>
    (if ¬ prevW ∧ m.isPrefixOf (c :: rest) ∧ boundaryAfterOk m (c :: rest)
     then 1 else 0)
    + countWordOcc m (isWordChar c) rest

/-- `count_hesitation_markers`. -/
def count_hesitation_markers (t : List Char) : Nat :=
  let low := pyLower t
  (HESITATION_MARKERS.map (fun m => countWordOcc m false low)).sum

/-! ## Line balancer -/

def get_dynamic_target_ratio (total_chars : Nat) : Rat :=
  if total_chars < 25 then 1/2
  else if total_chars < 35 then 9/20
  else if total_chars < 50 then 21/50
  else 2/5

def is_standalone_interjection (t : List Char) : Bool :=
  match pySplit (pyRStripSet ['.', ',', '!', '?'] (pyLower (pyStrip t))) with
  | [w] => w ∈ STANDALONE_INTERJECTIONS
  | _ => false

def is_single_char_artifact (t : List Char) : Bool :=
  let clean := pyStrip t
  clean.length ≤ 2 ∧ clean ∈ [".".data, "-".data, "?".data, "!".data, ",".data]

/-- `re.sub(r'\.\.\.\s+', '...', t)` : drop whitespace after an ellipsis. -/
def subEllipsisAfter : Nat → List Char → List Char
  | 0, l => l
  | f+1, '.' :: '.' :: '.' :: c :: rest =>
    if pySpace c then '.' :: '.' :: '.' :: subEllipsisAfter f (rest.dropWhile pySpace)
    else '.' :: subEllipsisAfter f ('.' :: '.' :: c :: rest)
  | f+1, c :: rest => c :: subEllipsisAfter f rest
  | _+1, [] => []

/-- `re.sub(r'\s+\.\.\.', '...', t)` : drop whitespace before an ellipsis. -/
def subEllipsisBefore : Nat → List Char → List Char
  | 0, l => l
  | f+1, c :: rest =>
    if pySpace c then
      match rest.dropWhile pySpace with
      | '.' :: '.' :: '.' :: tail => '.' :: '.' :: '.' :: subEllipsisBefore f tail
      | _ => c :: (rest.takeWhile pySpace ++ subEllipsisBefore f (rest.dropWhile pySpace))
    else c :: subEllipsisBefore f rest
  | _+1, [] => []

/-- `fix_ellipsis_spacing`. -/
def fix_ellipsis_spacing (t : List Char) : List Char :=
  let t1 := subEllipsisAfter t.length t
  subEllipsisBefore t1.length t1

/-- `is_sentence_end`. -/
def is_sentence_end (t : List Char) : Bool :=
  match (pyStrip t).getLast? with
  | some c => c ∈ ['.', '?', '!']
  | none => false

def sumLens (ws : List (List Char)) : Nat :=
  (ws.map List.length).sum

/-- The score the `find_best_split_point` loop body assigns to boundary `i`
(meaningful for `1 ≤ i < words.length`; all words nonempty, as produced by
`split()` — for an empty word the source would raise on `prev_word[-1]`,
here `getLast?` yields no bonus). -/
def split_score (words : List (List Char)) (target_ratio : Rat) (i : Nat) : Int :=
  let n := words.length
  let total_chars : Int := (sumLens words : Int) + n - 1
  let target_first_half : Int := ratTrunc ((total_chars : Rat) * target_ratio)
  let chars_first : Int := (sumLens (words.take i) : Int) + i - 1
  let score0 : Int := |chars_first - target_first_half|
  let score1 : Int :=
    match (words.getD (i - 1) []).getLast? with
    | some c =>
      if c ∈ SPLIT_AFTER_PUNCTUATION then
        if c ∈ ['.', '?', '!'] then score0 - 200 else score0 - 100
      else score0
    | none => score0
  let curr_word_lower := pyStripSet ['.', ',', '!', '?', ';', ':'] (pyLower (words.getD i []))
  let score2 : Int :=
    if curr_word_lower ∈ SPLIT_BEFORE_ADVERSATIVE then score1 - 80
    else if curr_word_lower ∈ SPLIT_BEFORE_COORDINATING then score1 - 50
    else if curr_word_lower ∈ SPLIT_BEFORE_RELATIVE then score1 - 30
    else score1
  let first_part := joinSp (words.take i)
  let second_part := joinSp (words.drop i)
  let chars_second : Int := (second_part.length : Int)
  let score3 : Int :=
    if chars_first > 0 ∧ chars_second > 0 ∧
        ((min chars_first chars_second : Int) : Rat)
          / ((max chars_first chars_second : Int) : Rat) < MIN_CHAR_RATIO_C
    then score2 + 400 else score2
  let score4 : Int :=
    if chars_first < (MIN_CHARS_PER_LINE : Int) ∧
        total_chars > (MIN_CHARS_PER_LINE : Int) * 2
    then score3 + 300 else score3
  let score5 : Int :=
    if chars_second < (MIN_CHARS_PER_LINE : Int) ∧
        total_chars > (MIN_CHARS_PER_LINE : Int) * 2
    then score4 + 300 else score4
  let score6 : Int :=
    if i < MIN_WORDS_PER_LINE ∧ ¬ is_standalone_interjection first_part ∧
        n ≥ MIN_WORDS_PER_LINE * 2
    then score5 + 500 else score5
  let score7 : Int :=
    if n - i < MIN_WORDS_PER_LINE ∧ ¬ is_standalone_interjection second_part ∧
        n ≥ MIN_WORDS_PER_LINE * 2
    then score6 + 500 else score6
  score7

/-- One step of the best-score tracking loop (`None` plays `float('inf')`). -/
def bestStep (words : List (List Char)) (target_ratio : Rat)
    (best : Option (Nat × Int)) (i : Nat) : Option (Nat × Int) :=
  let sc := split_score words target_ratio i
  match best with
  | none => some (i, sc)
  | some (_, bs) => if sc < bs then some (i, sc) else best

/-- `find_best_split_point`. -/
def find_best_split_point (words : List (List Char)) (target_ratio : Rat) : Nat :=
  if words.length ≤ 1 then words.length
  else
    match (List.range' 1 (words.length - 1)).foldl (bestStep words target_ratio) none with
    | some (b, _) => if b = 0 then words.length / 2 else b
    | none => words.length / 2

/-- The accumulation loop of the second repair pass of
`balance_lines_recursive`: keep taking words while the running line stays
within the cap; words that do not fit are silently dropped. -/
def greedyFold (acc : List Char) : List (List Char) → List Char
  | [] => acc
  | w :: ws =>
    if acc.length + w.length + 1 ≤ MAX_CHARS_PER_LINE then
      greedyFold (if acc.isEmpty then w else acc ++ ' ' :: w) ws
    else greedyFold acc ws

/-- The inlined last-resort 50/50 word split of `balance_lines_recursive`. -/
def fifty_fifty_split (words : List (List Char)) : List Char :=
  joinSp (words.take (words.length / 2)) ++ '\n' :: joinSp (words.drop (words.length / 2))

/-- The first inline repair pass of `balance_lines_recursive` (v3 fix for an
over-long `line1`): bisect `line1`'s own word list and prepend the remainder
to `line2`. -/
def balanceRepair1 (line1 line2 : List Char) (max_attempts : Nat) : List Char × List Char :=
  if line1.length > MAX_CHARS_PER_LINE ∧ 0 < max_attempts then
    let words1 := pySplit line1
    if words1.length ≥ 2 then
      let sub_split := words1.length / 2
      (joinSp (words1.take sub_split), joinSp (words1.drop sub_split) ++ ' ' :: line2)
    else (line1, line2)
  else (line1, line2)

/-- The second inline repair pass of `balance_lines_recursive` (v3 fix for an
over-long `line2`): keep the words that fit in the cap and silently drop the
rest. -/
def balanceRepair2 (line2 : List Char) (max_attempts : Nat) : List Char :=
  if line2.length > MAX_CHARS_PER_LINE ∧ 0 < max_attempts then
    let words2 := pySplit line2
    if words2.length ≥ 2 then greedyFold [] words2
    else line2
  else line2

/-- `balance_lines_recursive` (despite its name the v3 source performs the
two inline repair passes above and never calls itself). -/
def balance_lines_recursive (text : List Char) (max_attempts : Nat := 5) : List Char :=
  let clean_text := pyNormalize text
  if clean_text.length ≤ MAX_CHARS_PER_LINE then clean_text
  else
    let words := pySplit clean_text
    if words.length < 2 then
      if clean_text.length > MAX_CHARS_PER_LINE then
        clean_text.take MAX_CHARS_PER_LINE ++ '-' :: '\n' :: clean_text.drop MAX_CHARS_PER_LINE
      else clean_text
    else
      let target_ratio := get_dynamic_target_ratio clean_text.length
      let split_idx := find_best_split_point words target_ratio
      let line1 := joinSp (words.take split_idx)
      let line2 := joinSp (words.drop split_idx)
      let p1 := balanceRepair1 line1 line2 max_attempts
      let line2b := balanceRepair2 p1.2 max_attempts
      if p1.1.length ≤ MAX_CHARS_PER_LINE ∧ line2b.length ≤ MAX_CHARS_PER_LINE then
        p1.1 ++ '\n' :: line2b
      else fifty_fifty_split words

/-! ## Block splitter -/

/-- `calculate_syllable_weighted_duration`. -/
def calculate_syllable_weighted_duration (text total_text : List Char)
    (total_duration_ms : Int) : Int :=
  let text_syllables := count_text_syllables text
  let total_syllables := count_text_syllables total_text
  let text_chars := (text.filter (fun c => c ≠ '\n' ∧ c ≠ ' ')).length
  let total_chars := (total_text.filter (fun c => c ≠ '\n' ∧ c ≠ ' ')).length
  let total_syllables := if total_syllables = 0 then 1 else total_syllables
  let total_chars := if total_chars = 0 then 1 else total_chars
  let syl_ratio : Rat := (text_syllables : Rat) / (total_syllables : Rat)
  let char_ratio : Rat := (text_chars : Rat) / (total_chars : Rat)
  let combined_ratio : Rat := 7/10 * syl_ratio + 3/10 * char_ratio
  ratTrunc ((total_duration_ms : Rat) * combined_ratio)

/-- `calculate_pause_adjusted_duration`. -/
def calculate_pause_adjusted_duration (text : List Char) (base_duration_ms : Int)
    (total_text : List Char) (total_duration_ms : Int) : Int :=
  let segment_pauses := estimate_punctuation_pauses text
  let segment_hesitations := (count_hesitation_markers text : Rat) * HESITATION_PAUSE
  let total_pauses := estimate_punctuation_pauses total_text
  let total_hesitations := (count_hesitation_markers total_text : Rat) * HESITATION_PAUSE
  let total_pause_time := total_pauses + total_hesitations
  let segment_pause_time := segment_pauses + segment_hesitations
  if total_pause_time > 0 then
    let pause_ratio := segment_pause_time / total_pause_time
    let pause_duration_ms := ratTrunc ((total_duration_ms : Rat) * (2/10) * pause_ratio)
    base_duration_ms + ratTrunc ((pause_duration_ms : Rat) * (5/10))
  else base_duration_ms

/-- The word-accumulation loop of `split_text_for_blocks`; the remaining word
list plays `words[i:]`, so `words_remaining = (word :: rest).length`. -/
def splitLoop : List (List Char) → List (List Char) → Nat → Nat → Rat → List (List Char)
  | [], current_words, _, _, _ =>
    if current_words.isEmpty then [] else [joinSp current_words]
  | word :: rest, current_words, current_chars, blocks_remaining, target_per_block =>
    let word_chars := word.length + (if current_words.isEmpty then 0 else 1)
    let doClose : Bool :=
      if ((current_chars + word_chars : Nat) : Rat) > target_per_block * (11/10) ∧
          1 < blocks_remaining ∧ MIN_WORDS_PER_LINE ≤ current_words.length then
        let stripped := pyStripSet ['.', ',', '!', '?'] (pyLower word)
        let should_split : Bool :=
          (match current_words.getLast? with
           | some lw =>
             match lw.getLast? with
             | some c => decide (c ∈ SPLIT_AFTER_PUNCTUATION)
             | none => false
           | none => false)
          || decide (stripped ∈ SPLIT_BEFORE_ADVERSATIVE)
          || decide (stripped ∈ SPLIT_BEFORE_COORDINATING)
          || decide ((current_chars : Rat) > target_per_block)
        should_split && decide (MIN_WORDS_PER_LINE ≤ (word :: rest).length)
      else false
    if doClose then
      let remaining_chars : Nat := sumLens (word :: rest) + (word :: rest).length - 1
      let newTarget : Rat :=
        if 0 < blocks_remaining - 1 then
          (remaining_chars : Rat) / ((blocks_remaining - 1 : Nat) : Rat)
        else target_per_block
      joinSp current_words ::
        splitLoop rest [word] word_chars (blocks_remaining - 1) newTarget
    else
      splitLoop rest (current_words ++ [word]) (current_chars + word_chars)
        blocks_remaining target_per_block

/-- `split_text_for_blocks`. -/
def split_text_for_blocks (text : List Char) (num_blocks : Nat) : List (List Char) :=
  let clean_text := pyNormalize text
  let words := pySplit clean_text
  if num_blocks ≤ 1 ∨ words.length ≤ 1 then [clean_text]
  else
    let total_chars := clean_text.length
    let target_per_block : Rat := (total_chars : Rat) / (num_blocks : Rat)
    splitLoop words [] 0 num_blocks target_per_block

/-- `needs_block_split`. -/
def needs_block_split (sub : Subtitle) : Bool :=
  decide ((MAX_CHARS_PER_BLOCK : Nat) < sub.char_count) ∨
  decide (MAX_DURATION_SEC < sub.duration_sec)

/-- `calculate_blocks_needed`. -/
def calculate_blocks_needed (sub : Subtitle) : Nat :=
  let char_blocks : Nat :=
    max 1 ((sub.char_count + MAX_CHARS_PER_BLOCK - 1) / MAX_CHARS_PER_BLOCK)
  let duration_blocks : Int :=
    max 1 (ratTrunc (sub.duration_sec / MAX_DURATION_SEC) +
      (if pyFMod sub.duration_sec MAX_DURATION_SEC > 1/2 then 1 else 0))
  max char_blocks duration_blocks.toNat

/-- The cue-construction loop at the end of `split_subtitle_block`: walk the
`(text, duration)` pairs, laying blocks out sequentially from `current_start`,
clamping non-final ends to `origEnd` and forcing the final end to `origEnd`;
`prev` carries `text_blocks[i-1]` for the leading-ellipsis rule and `multi`
records `len(text_blocks) > 1`. -/
def layoutBlocks (origEnd : Int) (multi : Bool) :
    Int → Option (List Char) → List (List Char × Int) → List Subtitle
  | _, _, [] => []
  | current_start, prev, (block_text, duration) :: rest =>
    let min_duration_ms : Int := ratTrunc (MIN_DURATION_SEC * 1000)
    let d := max duration min_duration_ms
    let current_end0 := current_start + d
    let isLast := rest.isEmpty
    let current_end :=
      if isLast then origEnd
      else if current_end0 > origEnd then origEnd else current_end0
    let t1 :=
      if multi ∧ ¬ isLast ∧ ¬ is_sentence_end block_text then
        pyRStrip block_text ++ "...".data
      else block_text
    let t2 :=
      match prev with
      | some p => if multi ∧ ¬ is_sentence_end p then "...".data ++ pyLStrip t1 else t1
      | none => t1
    let t3 := fix_ellipsis_spacing t2
    ⟨0, current_start, current_end, t3⟩ ::
      layoutBlocks origEnd multi current_end (some block_text) rest

/-- `split_subtitle_block`. -/
def split_subtitle_block (sub : Subtitle) : List Subtitle :=
  if ¬ needs_block_split sub then [sub]
  else
    let num_blocks := calculate_blocks_needed sub
    let text_blocks := split_text_for_blocks sub.text num_blocks
    if text_blocks.length = 1 then [sub]
    else
      let total_text := joinSp text_blocks
      let total_duration := sub.end_ms - sub.start_ms
      let raw_durations := text_blocks.map
        (fun b => calculate_syllable_weighted_duration b total_text total_duration)
      let adjusted_durations := (text_blocks.zip raw_durations).map
        (fun p => calculate_pause_adjusted_duration p.1 p.2 total_text total_duration)
      let total_adjusted := adjusted_durations.sum
      let adjusted_durations :=
        if total_adjusted > 0 then
          adjusted_durations.map
            (fun d => ratTrunc ((d : Rat) * ((total_duration : Rat) / (total_adjusted : Rat))))
        else adjusted_durations
      layoutBlocks sub.end_ms (decide (1 < text_blocks.length)) sub.start_ms none
        (text_blocks.zip adjusted_durations)

/-! ## Remaining pipeline stages -/

/-- `fix_line_lengths`. -/
def fix_line_lengths (sub : Subtitle) : Subtitle :=
  let balanced_text := balance_lines_recursive sub.text
  let balanced_text := fix_ellipsis_spacing balanced_text
  ⟨sub.index, sub.start_ms, sub.end_ms, balanced_text⟩

/-- `extend_short_duration`. -/
def extend_short_duration (sub : Subtitle) (next_sub : Option Subtitle) : Subtitle :=
  let min_duration_ms : Int := ratTrunc (MIN_DURATION_SEC * 1000)
  let current_duration := sub.end_ms - sub.start_ms
  if current_duration ≥ min_duration_ms then sub
  else
    let needed_extension := min_duration_ms - current_duration
    let new_end := sub.end_ms + needed_extension
    match next_sub with
    | some nxt =>
      let max_end := nxt.start_ms - ratTrunc (MIN_GAP_BETWEEN_SUBS * 1000)
      if new_end > max_end then
        if max_end ≤ sub.end_ms then sub
        else ⟨sub.index, sub.start_ms, max_end, sub.text⟩
      else ⟨sub.index, sub.start_ms, new_end, sub.text⟩
    | none => ⟨sub.index, sub.start_ms, new_end, sub.text⟩

/-- Position-indexed renumbering (`renumber_subtitles` body). -/
def renumberGo (i : Nat) : List Subtitle → List Subtitle
  | [] => []
  | s :: rest => ⟨(i : Int) + 1, s.start_ms, s.end_ms, s.text⟩ :: renumberGo (i + 1) rest

/-- `renumber_subtitles`. -/
def renumber_subtitles (subtitles : List Subtitle) : List Subtitle :=
  renumberGo 0 subtitles

/-- Phase 3 of `fix_srt_file`: each cue is extended against its immediate
successor in the balanced sequence (`balanced_subtitles[i+1]`). -/
def extendAll : List Subtitle → List Subtitle
  | [] => []
  | [s] => [extend_short_duration s none]
  | s :: t :: rest => extend_short_duration s (some t) :: extendAll (t :: rest)

/-- Phases 1–4 of `fix_srt_file` (file I/O, backup counting and statistics
omitted): block split, line balance, duration extension, renumbering. -/
def fix_srt_pipeline (subs : List Subtitle) : List Subtitle :=
  let new_subtitles :=
    ((subs.map (fun sub =>
      if needs_block_split sub then split_subtitle_block sub else [sub])).flatten)
  let balanced_subtitles := new_subtitles.map fix_line_lengths
  let extended_subtitles := extendAll balanced_subtitles
  renumber_subtitles extended_subtitles

/-! ## Timestamps and the SRT reader -/

/-- The ASCII digit character for `n < 10`. -/
def digitChar (n : Nat) : Char := Char.ofNat (48 + n)

/-- Decimal digits of `n`, most significant first (fuel-driven). -/
def natDigitsFuel : Nat → Nat → List Char
  | 0, _ => []
  | f+1, n => if n < 10 then [digitChar n] else natDigitsFuel f (n / 10) ++ [digitChar (n % 10)]

def natDigits (n : Nat) : List Char := natDigitsFuel (n + 1) n

/-- Python `f"{n:0wd}"` for nonnegative `n`: zero-pad to width `w`. -/
def padDigits (w : Nat) (n : Nat) : List Char :=
  let ds := natDigits n
  List.replicate (w - ds.length) '0' ++ ds

/-- `ms_to_timestamp`.  Python `//` and `%` are floor division, hence
`fdiv`/`fmod`; the `{h:02d}` format is modelled for the nonnegative
components produced by nonnegative input times. -/
def ms_to_timestamp (ms : Int) : List Char :=
  let h := ms.fdiv 3600000
  let ms1 := ms.fmod 3600000
  let m := ms1.fdiv 60000
  let ms2 := ms1.fmod 60000
  let s := ms2.fdiv 1000
  let ms3 := ms2.fmod 1000
  padDigits 2 h.toNat ++ ':' :: padDigits 2 m.toNat ++ ':' :: padDigits 2 s.toNat
    ++ ',' :: padDigits 3 ms3.toNat

def digitVal (c : Char) : Nat := c.toNat - 48

/-- Read exactly `k` ASCII digits (regex `\d{k}`), returning the value and
the rest of the input. -/
def parseFixed : Nat → Nat → List Char → Option (Nat × List Char)
  | 0, acc, l => some (acc, l)
  | k+1, acc, l =>
    match l with
    | c :: rest =>
      if isAsciiDigit c then parseFixed k (acc * 10 + digitVal c) rest else none
    | [] => none

/-- Prefix match of regex `(\d{2}):(\d{2}):(\d{2})[,.](\d{3})` combined with
the `h*3600000 + m*60000 + s*1000 + ms` conversion of `timestamp_to_ms`. -/
def parseTsPrefix (l : List Char) : Option (Int × List Char) :=
  match parseFixed 2 0 l with
  | none => none
  | some (h, l1) =>
    match l1 with
    | ':' :: l2 =>
      match parseFixed 2 0 l2 with
      | none => none
      | some (m, l3) =>
        match l3 with
        | ':' :: l4 =>
          match parseFixed 2 0 l4 with
          | none => none
          | some (s, l5) =>
            match l5 with
            | sep :: l6 =>
              if sep = ',' ∨ sep = '.' then
                match parseFixed 3 0 l6 with
                | none => none
                | some (msv, l7) =>
                  some (((h * 3600000 + m * 60000 + s * 1000 + msv : Nat) : Int), l7)
              else none
            | [] => none
        | _ => none
    | _ => none

/-- `timestamp_to_ms` : `re.match` is a prefix match, and an unmatched
timestamp yields 0. -/
def timestamp_to_ms (ts : List Char) : Int :=
  match parseTsPrefix ts with
  | some (v, _) => v
  | none => 0

/-- The timestamp-line regex of `parse_srt`
(`(\d{2}:\d{2}:\d{2}[,.]\d{3})\s*-->\s*(\d{2}:\d{2}:\d{2}[,.]\d{3})`,
prefix-matched), composed with `timestamp_to_ms` on both captured groups
(which, being exact matches of the timestamp shape, convert to their
component value). -/
def parseTimestampLine (l : List Char) : Option (Int × Int) :=
  match parseTsPrefix l with
  | none => none
  | some (sv, r1) =>
    match r1.dropWhile pySpace with
    | '-' :: '-' :: '>' :: r2 =>
      match parseTsPrefix (r2.dropWhile pySpace) with
      | none => none
      | some (ev, _) => some (sv, ev)
    | _ => none

/-- Digit-string value for Python `int(...)` (underscore separators and
non-ASCII digits are not modelled). -/
def parseAllDigits (l : List Char) : Option Nat :=
  if l.isEmpty then none
  else if l.all isAsciiDigit then
    some (l.foldl (fun a c => a * 10 + digitVal c) 0)
  else none

/-- Python `int(s)` on an already-stripped string. -/
def pyParseInt (s : List Char) : Option Int :=
  match s with
  | '+' :: rest => (parseAllDigits rest).map (fun n => (n : Int))
  | '-' :: rest => (parseAllDigits rest).map (fun n => -(n : Int))
  | _ => (parseAllDigits s).map (fun n => (n : Int))

/-- The per-block body of the `parse_srt` loop: `None` means the block is
skipped (`continue`). -/
def parse_block (block : List Char) : Option Subtitle :=
  match pyLines (pyStrip block) with
  | l0 :: l1 :: l2 :: rest =>
    match pyParseInt (pyStrip l0) with
    | none => none
    | some idx =>
      match parseTimestampLine (pyStrip l1) with
      | none => none
      | some (s, e) =>
        let text := joinNl (l2 :: rest)
        if is_single_char_artifact text then none
        else some ⟨idx, s, e, text⟩
  | _ => none

/-- `parse_srt` restricted to its block loop: the in-memory sequence is the
blocks that parse, in order (file reading and the blank-line splitting of
the raw content are outside the embedding). -/
def parse_srt_blocks (blocks : List (List Char)) : List Subtitle :=
  blocks.filterMap parse_block

/-- `check_overlaps` (adjacent index pairs whose times overlap). -/
def check_overlaps : List Subtitle → List (Int × Int)
  | a :: b :: rest =>
    (if b.start_ms < a.end_ms then [(a.index, b.index)] else []) ++
      check_overlaps (b :: rest)
  | _ => []

/-! ## Digit-rendering lemmas for the timestamp round trip -/

theorem digitChar_spec (k : Nat) (hk : k < 10) :
    isAsciiDigit (digitChar k) = true ∧ digitVal (digitChar k) = k := by
  interval_cases k <;> exact ⟨by decide, by decide⟩

theorem natDigitsFuel_congr (n : Nat) : ∀ f g, n < f → n < g →
    natDigitsFuel f n = natDigitsFuel g n := by
  induction n using Nat.strong_induction_on with
  | _ n ih =>
    intro f g hf hg
    obtain ⟨f', rfl⟩ : ∃ f', f = f' + 1 := ⟨f - 1, by omega⟩
    obtain ⟨g', rfl⟩ : ∃ g', g = g' + 1 := ⟨g - 1, by omega⟩
    by_cases h10 : n < 10
    · simp [natDigitsFuel, h10]
    · have hrec : n / 10 < n := Nat.div_lt_self (by omega) (by omega)
      simp only [natDigitsFuel, h10, if_false]
      rw [ih (n / 10) hrec f' g' (by omega) (by omega)]

theorem natDigits_lt10 (n : Nat) (h : n < 10) : natDigits n = [digitChar n] := by
  simp [natDigits, natDigitsFuel, h]

theorem natDigits_lt100 (n : Nat) (h10 : 10 ≤ n) (h : n < 100) :
    natDigits n = [digitChar (n / 10), digitChar (n % 10)] := by
  have hd : n / 10 < 10 := by omega
  unfold natDigits natDigitsFuel
  simp only [show ¬ n < 10 by omega, if_false]
  rw [natDigitsFuel_congr (n / 10) n (n / 10 + 1) (by omega) (by omega)]
  simp [natDigitsFuel, hd]

theorem padDigits2 (n : Nat) (h : n < 100) :
    padDigits 2 n = [digitChar (n / 10), digitChar (n % 10)] := by
  by_cases h10 : n < 10
  · have : n / 10 = 0 := by omega
    have h2 : n % 10 = n := by omega
    simp [padDigits, natDigits_lt10 n h10, this, h2, List.replicate]
    rfl
  · simp [padDigits, natDigits_lt100 n (by omega) h]

theorem padDigits3 (n : Nat) (h : n < 1000) :
    padDigits 3 n = [digitChar (n / 100), digitChar (n / 10 % 10), digitChar (n % 10)] := by
  by_cases h10 : n < 10
  · have e1 : n / 100 = 0 := by omega
    have e2 : n / 10 % 10 = 0 := by omega
    have e3 : n % 10 = n := by omega
    simp [padDigits, natDigits_lt10 n h10, e1, e2, e3, List.replicate]
    decide
  · by_cases h100 : n < 100
    · have e1 : n / 100 = 0 := by omega
      have e2 : n / 10 % 10 = n / 10 := by omega
      simp [padDigits, natDigits_lt100 n (by omega) h100, e1, e2, List.replicate]
      rfl
    · have hd : n / 10 < 100 := by omega
      have hd10 : 10 ≤ n / 10 := by omega
      have hnd : natDigits n = [digitChar (n / 10 / 10), digitChar (n / 10 % 10), digitChar (n % 10)] := by
        unfold natDigits natDigitsFuel
        simp only [show ¬ n < 10 by omega, if_false]
        rw [natDigitsFuel_congr (n / 10) n (n / 10 + 1) (by omega) (by omega)]
        rw [show natDigitsFuel (n / 10 + 1) (n / 10) = natDigits (n / 10) from rfl]
        rw [natDigits_lt100 (n / 10) hd10 hd]
        rfl
      have e1 : n / 10 / 10 = n / 100 := by omega
      simp [padDigits, hnd, e1]


theorem parseFixed2_pad (n : Nat) (h : n < 100) (rest : List Char) :
    parseFixed 2 0 (padDigits 2 n ++ rest) = some (n, rest) := by
  rw [padDigits2 n h]
  obtain ⟨hd1, hv1⟩ := digitChar_spec (n / 10) (by omega)
  obtain ⟨hd2, hv2⟩ := digitChar_spec (n % 10) (by omega)
  simp [parseFixed, hd1, hd2, hv1, hv2]
  omega

theorem parseFixed3_pad (n : Nat) (h : n < 1000) (rest : List Char) :
    parseFixed 3 0 (padDigits 3 n ++ rest) = some (n, rest) := by
  rw [padDigits3 n h]
  obtain ⟨hd1, hv1⟩ := digitChar_spec (n / 100) (by omega)
  obtain ⟨hd2, hv2⟩ := digitChar_spec (n / 10 % 10) (by omega)
  obtain ⟨hd3, hv3⟩ := digitChar_spec (n % 10) (by omega)
  simp [parseFixed, hd1, hd2, hd3, hv1, hv2, hv3]
  omega

/-- C10: for `0 ≤ ms < 360000000` (below 100 hours), rendering a time with
`ms_to_timestamp` and reading it back with `timestamp_to_ms` is the identity. -/
theorem C10_timestamp_round_trip (ms : Int) (h0 : 0 ≤ ms) (hlt : ms < 360000000) :
    timestamp_to_ms (ms_to_timestamp ms) = ms := by
  obtain ⟨n, rfl⟩ := Int.eq_ofNat_of_zero_le h0
  have hn : n < 360000000 := by exact_mod_cast hlt
  have hH : n / 3600000 < 100 := by omega
  have hR : n % 3600000 % 60000 % 1000 < 1000 := by omega
  have hts : ms_to_timestamp (n : Int)
      = padDigits 2 (n / 3600000) ++ ':' :: (padDigits 2 (n % 3600000 / 60000)
        ++ ':' :: (padDigits 2 (n % 3600000 % 60000 / 1000)
        ++ ',' :: padDigits 3 (n % 3600000 % 60000 % 1000))) := by
    have c1 : (3600000 : Int) = ((3600000 : Nat) : Int) := rfl
    have c2 : (60000 : Int) = ((60000 : Nat) : Int) := rfl
    have c3 : (1000 : Int) = ((1000 : Nat) : Int) := rfl
    simp only [ms_to_timestamp, c1, c2, c3, ← Int.ofNat_fdiv, ← Int.ofNat_fmod,
      Int.toNat_ofNat]
    simp
  rw [hts]
  have h3 := parseFixed3_pad (n % 3600000 % 60000 % 1000) hR []
  rw [List.append_nil] at h3
  simp only [timestamp_to_ms, parseTsPrefix,
    parseFixed2_pad _ hH, parseFixed2_pad _ (by omega : n % 3600000 / 60000 < 100),
    parseFixed2_pad _ (by omega : n % 3600000 % 60000 / 1000 < 100), h3]
  simp only [true_or, if_true]
  have hval : n / 3600000 * 3600000 + n % 3600000 / 60000 * 60000
      + n % 3600000 % 60000 / 1000 * 1000 + n % 3600000 % 60000 % 1000 = n := by omega
  simp [hval]

/-- Witness for C10 at a concrete time (1 h 1 min 1.001 s). -/
theorem C10_witness : timestamp_to_ms (ms_to_timestamp 3661001) = 3661001 :=
  C10_timestamp_round_trip 3661001 (by decide) (by decide)

/-! ## C4 : the duration extender's clamp -/

unseal Rat.mul Rat.add Rat.sub Rat.inv in
theorem ratTrunc_min_dur : ratTrunc (MIN_DURATION_SEC * 1000) = 833 := by decide

unseal Rat.mul Rat.add Rat.sub Rat.inv in
theorem ratTrunc_gap : ratTrunc (MIN_GAP_BETWEEN_SUBS * 1000) = 50 := by decide

/-- C4 (amended): with a successor present, the extender never moves the end
time strictly past `next.start_ms − 50`: either the cue is returned unchanged
(so its end can already lie past that bound) or the new end is
`≤ next.start_ms − 50`, with equality reached when the extension is clamped.
And whenever the clamp bound does not advance the end
(`next.start_ms − 50 ≤ end_ms`), the cue is returned unchanged. -/
theorem C4_extend_clamped (sub next : Subtitle) :
    (extend_short_duration sub (some next) = sub ∨
      (extend_short_duration sub (some next)).end_ms ≤ next.start_ms - 50) ∧
    (next.start_ms - 50 ≤ sub.end_ms → extend_short_duration sub (some next) = sub) := by
  unfold extend_short_duration
  simp only [ratTrunc_min_dur, ratTrunc_gap]
  by_cases h1 : sub.end_ms - sub.start_ms ≥ 833
  · simp [h1]
  · simp only [h1, if_false]
    by_cases h2 : sub.end_ms + (833 - (sub.end_ms - sub.start_ms)) > next.start_ms - 50
    · simp only [h2, if_true]
      by_cases h3 : next.start_ms - 50 ≤ sub.end_ms
      · simp [h3]
      · simp only [h3, if_false]
        refine ⟨Or.inr ?_, fun h4 => h4.elim⟩
        show next.start_ms - 50 ≤ next.start_ms - 50
        omega
    · simp only [h2, if_false]
      refine ⟨Or.inr ?_, fun h4 => ?_⟩
      · show sub.end_ms + (833 - (sub.end_ms - sub.start_ms)) ≤ next.start_ms - 50
        omega
      · exfalso
        omega

unseal Rat.mul Rat.add Rat.sub Rat.inv in
/-- C4 counterexample: the spec's own clamp scenario (duration 0.5 s,
successor at 0.6 s) produces `end_ms = 550 = next.start_ms − 50` exactly,
so the claimed strict bound `end_ms < next.start_ms − 50` is violated. -/
theorem C4_cex :
    extend_short_duration ⟨1, 0, 500, ['a']⟩ (some ⟨2, 600, 1200, ['b']⟩)
        = ⟨1, 0, 550, ['a']⟩ ∧
      ¬ ((extend_short_duration ⟨1, 0, 500, ['a']⟩
          (some ⟨2, 600, 1200, ['b']⟩)).end_ms < (600 : Int) - 50) := by
  decide

unseal Rat.mul Rat.add Rat.sub Rat.inv in
/-- Witness for C4 at a concrete no-advance input: duration 0.5 s with a
successor at 0.52 s leaves the cue unchanged. -/
theorem C4_witness :
    extend_short_duration ⟨1, 0, 500, ['a']⟩ (some ⟨2, 520, 1200, ['b']⟩)
      = ⟨1, 0, 500, ['a']⟩ :=
  (C4_extend_clamped ⟨1, 0, 500, ['a']⟩ ⟨2, 520, 1200, ['b']⟩).2 (by decide)
theorem pySplit_join (ws : List (List Char))
    (h : ∀ w ∈ ws, w ≠ [] ∧ ∀ c ∈ w, pySpace c = false) :
    pySplit (joinSp ws) = ws := by
  induction ws with
  | nil => rfl
  | cons w vs ih =>
    cases vs with
    | nil =>
      show pySplit w = [w]
      unfold pySplit
      rw [splitP_no_sep pySpace w (h w (List.mem_cons_self _ _)).2]
      simp [(h w (List.mem_cons_self _ _)).1]
    | cons v vs' =>
      show pySplit (w ++ ' ' :: joinSp (v :: vs')) = w :: v :: vs'
      unfold pySplit
      rw [splitP_append_sep pySpace w _ ' ' (h w (List.mem_cons_self _ _)).2 (by decide)]
      have ihx := ih (fun u hu => h u (List.mem_cons_of_mem _ hu))
      unfold pySplit at ihx
      simp only [List.filter_cons]
      simp only [List.isEmpty_eq_true, decide_not] at ihx ⊢
      simp [(h w (List.mem_cons_self _ _)).1, ihx]

theorem pySplit_normalize (t : List Char) : pySplit (pyNormalize t) = pySplit t :=
  pySplit_join (pySplit t) (pySplit_chunks t)

/-- C8 (confirmed): a cue that needs a block split but whose text has fewer than 2
whitespace-separated words is passed through as the single original cue. -/
theorem C8_few_words_passthrough (sub : Subtitle)
    (h1 : needs_block_split sub = true)
    (h2 : (pySplit sub.text).length < 2) :
    split_subtitle_block sub = [sub] := by
  have hw : (pySplit (pyNormalize sub.text)).length ≤ 1 := by
    rw [pySplit_normalize]
    omega
  have htb : split_text_for_blocks sub.text (calculate_blocks_needed sub)
      = [pyNormalize sub.text] := by
    unfold split_text_for_blocks
    simp [hw]
  unfold split_subtitle_block
  rw [if_neg (by simp [h1])]
  simp only [htb]
  simp

/-- Single-word oversized cue (85 characters) used as the C8 witness. -/
def c8cue : Subtitle := ⟨1, 0, 1000, List.replicate 85 'y'⟩

unseal Rat.mul Rat.add Rat.sub Rat.inv in
/-- Witness for C8: the 85-character single-word cue passes through unsplit. -/
theorem C8_witness : split_subtitle_block c8cue = [c8cue] :=
  C8_few_words_passthrough c8cue (by decide) (by decide)
theorem layoutBlocks_nil (origEnd : Int) (multi : Bool) (curStart : Int)
    (prev : Option (List Char)) :
    layoutBlocks origEnd multi curStart prev [] = [] := rfl

theorem layoutBlocks_mem_times (origEnd : Int) (multi : Bool) :
    ∀ (pairs : List (List Char × Int)) (curStart : Int) (prev : Option (List Char)),
      curStart ≤ origEnd →
      ∀ s ∈ layoutBlocks origEnd multi curStart prev pairs,
        s.start_ms ≤ s.end_ms ∧ s.end_ms ≤ origEnd := by
  intro pairs
  induction pairs with
  | nil => intro curStart prev hle s hs; simp [layoutBlocks_nil] at hs
  | cons p rest ih =>
    intro curStart prev hle s hs
    obtain ⟨btext, dur⟩ := p
    unfold layoutBlocks at hs
    simp only [ratTrunc_min_dur] at hs
    have hmax : (833 : Int) ≤ max dur 833 := le_max_right _ _
    rcases List.mem_cons.mp hs with hhead | htail
    · subst hhead
      by_cases hL : rest.isEmpty
      · simp only [hL, if_true]
        exact ⟨hle, le_refl _⟩
      · simp only [hL, if_false]
        by_cases hc : curStart + max dur 833 > origEnd
        · simp only [hc, if_true]
          exact ⟨hle, le_refl _⟩
        · simp only [hc, if_false]
          constructor
          · omega
          · omega
    · set curEnd := if rest.isEmpty then origEnd
        else if curStart + max dur 833 > origEnd then origEnd else curStart + max dur 833 with hcE
      have hle2 : curEnd ≤ origEnd := by
        rw [hcE]
        by_cases hL : rest.isEmpty
        · simp [hL]
        · simp only [hL, if_false]
          by_cases hc : curStart + max dur 833 > origEnd
          · simp [hc]
          · simp only [hc, if_false]
            omega
      exact ih curEnd (some btext) hle2 s htail
/-- The end time `layoutBlocks` assigns to the current block (restatement of
its `let` chain, used to state the loop equations). -/
def layoutEnd (origEnd : Int) (curStart : Int) (dur : Int) (isLast : Bool) : Int :=
  let d := max dur (ratTrunc (MIN_DURATION_SEC * 1000))
  if isLast then origEnd else if curStart + d > origEnd then origEnd else curStart + d

/-- The text `layoutBlocks` assigns to the current block (ellipsis marking). -/
def layoutText (multi : Bool) (prev : Option (List Char)) (block_text : List Char)
    (isLast : Bool) : List Char :=
  let t1 := if multi ∧ ¬ isLast ∧ ¬ is_sentence_end block_text then
      pyRStrip block_text ++ "...".data
    else block_text
  let t2 :=
    match prev with
    | some p => if multi ∧ ¬ is_sentence_end p then "...".data ++ pyLStrip t1 else t1
    | none => t1
  fix_ellipsis_spacing t2

theorem layoutBlocks_cons (origEnd : Int) (multi : Bool) (curStart : Int)
    (prev : Option (List Char)) (btext : List Char) (dur : Int)
    (rest : List (List Char × Int)) :
    layoutBlocks origEnd multi curStart prev ((btext, dur) :: rest)
      = ⟨0, curStart, layoutEnd origEnd curStart dur rest.isEmpty,
          layoutText multi prev btext rest.isEmpty⟩
        :: layoutBlocks origEnd multi (layoutEnd origEnd curStart dur rest.isEmpty)
            (some btext) rest := rfl

theorem layoutBlocks_head_start (origEnd : Int) (multi : Bool) (curStart : Int)
    (prev : Option (List Char)) (p : List Char × Int) (rest : List (List Char × Int)) :
    (layoutBlocks origEnd multi curStart prev (p :: rest)).head?.map Subtitle.start_ms
      = some curStart := by
  obtain ⟨btext, dur⟩ := p
  rw [layoutBlocks_cons]
  rfl

theorem layoutBlocks_chain (origEnd : Int) (multi : Bool) :
    ∀ (pairs : List (List Char × Int)) (curStart : Int) (prev : Option (List Char)),
      List.Chain' (fun a b => b.start_ms = a.end_ms)
        (layoutBlocks origEnd multi curStart prev pairs) := by
  intro pairs
  induction pairs with
  | nil => intro _ _; simp [layoutBlocks_nil]
  | cons p rest ih =>
    intro curStart prev
    obtain ⟨btext, dur⟩ := p
    rw [layoutBlocks_cons, List.chain'_cons']
    refine ⟨?_, ih _ _⟩
    intro b hb
    cases rest with
    | nil => simp [layoutBlocks_nil] at hb
    | cons q rest' =>
      obtain ⟨qt, qd⟩ := q
      rw [layoutBlocks_cons] at hb
      simp only [List.head?_cons, Option.mem_some_iff] at hb
      subst hb
      rfl

theorem layoutBlocks_last_end (origEnd : Int) (multi : Bool) :
    ∀ (pairs : List (List Char × Int)) (curStart : Int) (prev : Option (List Char)),
      pairs ≠ [] →
      (layoutBlocks origEnd multi curStart prev pairs).getLast?.map Subtitle.end_ms
        = some origEnd := by
  intro pairs
  induction pairs with
  | nil => intro _ _ hne; exact absurd rfl hne
  | cons p rest ih =>
    intro curStart prev _
    obtain ⟨btext, dur⟩ := p
    rw [layoutBlocks_cons]
    cases rest with
    | nil =>
      simp [layoutBlocks_nil, layoutEnd]
    | cons q rest' =>
      obtain ⟨qt, qd⟩ := q
      rw [layoutBlocks_cons, List.getLast?_cons_cons, ← layoutBlocks_cons]
      exact ih _ _ (by simp)
/-- C2 (amended): on a cue with positive duration, every cue returned by the
block splitter satisfies `start_ms ≤ end_ms`; zero-duration outputs are
possible (see the counterexample), negative ones are not. -/
theorem C2_split_no_negative_duration (sub : Subtitle) (h : sub.start_ms < sub.end_ms) :
    ∀ s ∈ split_subtitle_block sub, s.start_ms ≤ s.end_ms := by
  intro s hs
  unfold split_subtitle_block at hs
  by_cases h1 : needs_block_split sub = true
  · simp only [h1, not_true, if_false, Bool.true_eq_false] at hs
    by_cases h2 : (split_text_for_blocks sub.text (calculate_blocks_needed sub)).length = 1
    · simp only [h2, if_true, if_pos] at hs
      simp at hs
      subst hs
      omega
    · simp only [h2, if_false] at hs
      exact (layoutBlocks_mem_times sub.end_ms _ _ sub.start_ms none (by omega) s hs).1
  · simp only [h1, Bool.false_eq_true, not_false_iff, if_true] at hs
    simp at hs
    subst hs
    omega
theorem layoutBlocks_timing_of_two (origEnd : Int) (multi : Bool) (curStart : Int)
    (prev : Option (List Char)) (pairs : List (List Char × Int))
    (h : 2 ≤ (layoutBlocks origEnd multi curStart prev pairs).length) :
    (layoutBlocks origEnd multi curStart prev pairs).head?.map Subtitle.start_ms
        = some curStart ∧
    List.Chain' (fun a b => b.start_ms = a.end_ms)
        (layoutBlocks origEnd multi curStart prev pairs) ∧
    (layoutBlocks origEnd multi curStart prev pairs).getLast?.map Subtitle.end_ms
        = some origEnd := by
  cases pairs with
  | nil => rw [layoutBlocks_nil] at h; simp at h
  | cons p rest =>
    exact ⟨layoutBlocks_head_start origEnd multi curStart prev p rest,
      layoutBlocks_chain origEnd multi (p :: rest) curStart prev,
      layoutBlocks_last_end origEnd multi (p :: rest) curStart prev (by simp)⟩

/-- C3: when the block splitter returns at least two cues, the first starts at
the original `start_ms`, each subsequent cue starts exactly where the previous
one ends, and the last ends at the original `end_ms` exactly. -/
theorem C3_split_contiguous_timing (sub : Subtitle)
    (h : 2 ≤ (split_subtitle_block sub).length) :
    (split_subtitle_block sub).head?.map Subtitle.start_ms = some sub.start_ms ∧
    List.Chain' (fun a b => b.start_ms = a.end_ms) (split_subtitle_block sub) ∧
    (split_subtitle_block sub).getLast?.map Subtitle.end_ms = some sub.end_ms := by
  unfold split_subtitle_block at h ⊢
  by_cases h1 : needs_block_split sub = true
  · simp only [h1, not_true, Bool.true_eq_false, if_false] at h ⊢
    by_cases h2 : (split_text_for_blocks sub.text (calculate_blocks_needed sub)).length = 1
    · simp only [h2, if_true] at h
      simp at h
    · simp only [h2, if_false] at h ⊢
      exact layoutBlocks_timing_of_two _ _ _ _ _ h
  · simp only [h1, Bool.false_eq_true, not_false_iff, if_true] at h
    simp at h
/-- A 99-character, 0.5-second cue (ten 9-letter words): the splitter's
minimum-duration floor forces the first block to the whole span and the
final block to zero duration. -/
def c2cue : Subtitle :=
  ⟨1, 0, 500,
    ("wwwwwwwww wwwwwwwww wwwwwwwww wwwwwwwww wwwwwwwww wwwwwwwww wwwwwwwww wwwwwwwww wwwwwwwww wwwwwwwww").data⟩

unseal Rat.mul Rat.add Rat.sub Rat.inv in
/-- C2 counterexample: the split of `c2cue` yields times `[(0,500),(500,500)]`
— the final cue has `end_ms = start_ms`, a zero-duration cue. -/
theorem C2_cex :
    (split_subtitle_block c2cue).map (fun s => (s.start_ms, s.end_ms))
        = [(0, 500), (500, 500)] ∧
      ¬ (∀ s ∈ split_subtitle_block c2cue, s.start_ms < s.end_ms) := by
  constructor
  · decide
  · decide

unseal Rat.mul Rat.add Rat.sub Rat.inv in
/-- Witness for C2 applied to the concrete split of `c2cue`. -/
theorem C2_witness :
    ((split_subtitle_block c2cue).headD ⟨0, 0, 0, []⟩).start_ms
      ≤ ((split_subtitle_block c2cue).headD ⟨0, 0, 0, []⟩).end_ms :=
  C2_split_no_negative_duration c2cue (by decide)
    ((split_subtitle_block c2cue).headD ⟨0, 0, 0, []⟩) (by decide)

/-- A 9-second, 88-character two-word-splittable cue for the C3 witness. -/
def c3cue : Subtitle :=
  ⟨1, 0, 9000,
    ("This is a nicely sized test sentence that we will use to check the two block scenario OK").data⟩

unseal Rat.mul Rat.add Rat.sub Rat.inv in
/-- Witness for C3: `c3cue` splits into two cues; its first output starts at
0 and its last output ends at 9000. -/
theorem C3_witness :
    (split_subtitle_block c3cue).head?.map Subtitle.start_ms = some 0 ∧
    List.Chain' (fun a b => b.start_ms = a.end_ms) (split_subtitle_block c3cue) ∧
    (split_subtitle_block c3cue).getLast?.map Subtitle.end_ms = some 9000 :=
  C3_split_contiguous_timing c3cue (by decide)
/-! ## C6 : the blocks-needed formula and the 9 s / 90-character scenario -/

/-- The claim's `blocks_needed` formula, stated as written:
`max(ceil(chars/84), d)` where `d = floor(duration/8.0)` rounded up exactly
when the remainder of `duration` modulo `8.0` exceeds `0.5`. -/
def blocksNeededSpec (sub : Subtitle) : Nat :=
  let char_blocks : Nat := (sub.char_count + MAX_CHARS_PER_BLOCK - 1) / MAX_CHARS_PER_BLOCK
  let d : Int := ⌊sub.duration_sec / MAX_DURATION_SEC⌋ +
    (if pyFMod sub.duration_sec MAX_DURATION_SEC > 1/2 then 1 else 0)
  max char_blocks d.toNat

theorem ratTrunc_eq_floor (q : Rat) (h : 0 ≤ q) : ratTrunc q = ⌊q⌋ := by
  rw [Rat.floor_def]
  exact Int.tdiv_eq_ediv (Rat.num_nonneg.mpr h) (by positivity)

/-- The 90-character, 9-second scenario cue of the claim. -/
def c6cue : Subtitle :=
  ⟨1, 0, 9000,
    ("This is a nicely sized test sentence that we will use to check the two block scenario OKAY").data⟩

unseal Rat.mul Rat.add Rat.sub Rat.inv in
/-- C6 (amended): on cues with nonempty text and nonnegative duration,
`calculate_blocks_needed` equals the claimed formula, and the 9 s / 90-char
scenario yields 2 blocks and exactly 2 output cues when the text is
splittable (at least two words partitioned into two blocks). -/
theorem C6_blocks_needed_formula :
    (∀ sub : Subtitle, 1 ≤ sub.char_count → sub.start_ms ≤ sub.end_ms →
        calculate_blocks_needed sub = blocksNeededSpec sub) ∧
      calculate_blocks_needed c6cue = 2 ∧
      (split_subtitle_block c6cue).length = 2 := by
  refine ⟨?_, by decide, by decide⟩
  intro sub hc hse
  have hdnum : (0 : Rat) ≤ ((sub.end_ms - sub.start_ms : Int) : Rat) := by
    exact_mod_cast (by omega : (0 : Int) ≤ sub.end_ms - sub.start_ms)
  have hdur : 0 ≤ sub.duration_sec := by
    unfold Subtitle.duration_sec
    exact div_nonneg hdnum (by norm_num)
  have hx : 0 ≤ sub.duration_sec / MAX_DURATION_SEC :=
    div_nonneg hdur (by norm_num [MAX_DURATION_SEC])
  unfold calculate_blocks_needed blocksNeededSpec
  rw [ratTrunc_eq_floor _ hx]
  simp only []
  have hcb : 1 ≤ (sub.char_count + MAX_CHARS_PER_BLOCK - 1) / MAX_CHARS_PER_BLOCK := by
    unfold MAX_CHARS_PER_BLOCK
    omega
  have hfl : 0 ≤ ⌊sub.duration_sec / MAX_DURATION_SEC⌋ := Int.floor_nonneg.mpr hx
  have hi : (0:Int) ≤ (if pyFMod sub.duration_sec MAX_DURATION_SEC > 1/2 then (1:Int) else 0) := by
    split <;> norm_num
  omega

/-- A 90-character single-word cue spanning 9 s. -/
def c6word : Subtitle := ⟨1, 0, 9000, List.replicate 90 'x'⟩

unseal Rat.mul Rat.add Rat.sub Rat.inv in
/-- C6 counterexample: a 9.0 s cue with 90 characters whose
`calculate_blocks_needed` is 2 but for which the Block Splitter returns a
single cue (the text is one word), refuting "produces exactly 2 output
cues" for every such cue. -/
theorem C6_cex :
    c6word.char_count = 90 ∧ c6word.end_ms - c6word.start_ms = 9000 ∧
      calculate_blocks_needed c6word = 2 ∧
      (split_subtitle_block c6word).length = 1 :=
  ⟨by decide, by decide, by decide, by decide⟩

unseal Rat.mul Rat.add Rat.sub Rat.inv in
/-- Witness for the universally quantified formula part of C6 at `c6word`. -/
theorem C6_witness : calculate_blocks_needed c6word = blocksNeededSpec c6word :=
  C6_blocks_needed_formula.1 c6word (by decide) (by decide)
/-! ## C7 : the boundary-score argmin -/

theorem bestStep_go (words : List (List Char)) (tr : Rat) :
    ∀ (l : List Nat) (b : Nat), List.Pairwise (· < ·) (b :: l) →
      ∃ r, l.foldl (bestStep words tr) (some (b, split_score words tr b))
            = some (r, split_score words tr r) ∧
        (r = b ∨ r ∈ l) ∧
        split_score words tr r ≤ split_score words tr b ∧
        (∀ j ∈ l, split_score words tr r ≤ split_score words tr j) ∧
        b ≤ r ∧
        (r ≠ b → split_score words tr r < split_score words tr b) ∧
        (∀ j ∈ l, j < r → split_score words tr r < split_score words tr j) := by
  intro l
  induction l with
  | nil =>
    intro b _
    exact ⟨b, rfl, Or.inl rfl, le_refl _, by simp, le_refl _,
      fun h => absurd rfl h, by simp⟩
  | cons j tl ih =>
    intro b hp
    have hbj : b < j := (List.pairwise_cons.mp hp).1 j (List.mem_cons_self _ _)
    have hptail : List.Pairwise (· < ·) (j :: tl) := (List.pairwise_cons.mp hp).2
    simp only [List.foldl_cons]
    by_cases hlt : split_score words tr j < split_score words tr b
    · have hstep : bestStep words tr (some (b, split_score words tr b)) j
          = some (j, split_score words tr j) := by
        unfold bestStep
        simp [hlt]
      rw [hstep]
      obtain ⟨r, hfold, hmem, hle, hall, hge, hne, hfirst⟩ := ih j hptail
      refine ⟨r, hfold, ?_, le_trans hle (le_of_lt hlt), ?_, by omega, ?_, ?_⟩
      · right
        rcases hmem with rfl | hm
        · exact List.mem_cons_self _ _
        · exact List.mem_cons_of_mem _ hm
      · intro k hk
        rcases List.mem_cons.mp hk with rfl | hk2
        · exact hle
        · exact hall k hk2
      · intro _
        exact lt_of_le_of_lt hle hlt
      · intro k hk hkr
        rcases List.mem_cons.mp hk with rfl | hk2
        · exact hne (by omega)
        · exact hfirst k hk2 hkr
    · have hstep : bestStep words tr (some (b, split_score words tr b)) j
          = some (b, split_score words tr b) := by
        unfold bestStep
        simp [hlt]
      rw [hstep]
      have hptail2 : List.Pairwise (· < ·) (b :: tl) := by
        rw [List.pairwise_cons]
        exact ⟨fun k hk => (List.pairwise_cons.mp hp).1 k (List.mem_cons_of_mem _ hk),
          (List.pairwise_cons.mp hptail).2⟩
      obtain ⟨r, hfold, hmem, hle, hall, hge, hne, hfirst⟩ := ih b hptail2
      refine ⟨r, hfold, ?_, hle, ?_, hge, hne, ?_⟩
      · rcases hmem with rfl | hm
        · exact Or.inl rfl
        · exact Or.inr (List.mem_cons_of_mem _ hm)
      · intro k hk
        rcases List.mem_cons.mp hk with rfl | hk2
        · exact le_trans hle (not_lt.mp hlt)
        · exact hall k hk2
      · intro k hk hkr
        rcases List.mem_cons.mp hk with rfl | hk2
        · rcases hmem with rfl | hm
          · omega
          · have hrb : r ≠ b := by
              have := (List.pairwise_cons.mp hptail).1 r hm
              omega
            exact lt_of_lt_of_le (hne hrb) (not_lt.mp hlt)
        · exact hfirst k hk2 hkr

theorem pairwise_lt_range1 (s n : Nat) : List.Pairwise (· < ·) (List.range' s n) := by
  induction n generalizing s with
  | zero => simp
  | succ m ih =>
    rw [List.range'_succ]
    rw [List.pairwise_cons]
    refine ⟨fun k hk => ?_, ih (s + 1)⟩
    rw [List.mem_range'] at hk
    obtain ⟨i, _, rfl⟩ := hk
    omega

theorem mem_range1 (m s n : Nat) : m ∈ List.range' s n ↔ s ≤ m ∧ m < s + n := by
  rw [List.mem_range']
  constructor
  · rintro ⟨i, hi, rfl⟩
    omega
  · intro ⟨h1, h2⟩
    exact ⟨m - s, by omega, by omega⟩

/-- C7: for at least two words, `find_best_split_point` returns an in-range
boundary whose score is minimal, and strictly below the score of every
earlier-scanned boundary (ties go to the earliest). -/
theorem C7_find_best_split_point (words : List (List Char)) (tr : Rat)
    (h : 2 ≤ words.length) :
    (1 ≤ find_best_split_point words tr ∧
      find_best_split_point words tr < words.length) ∧
    (∀ i, 1 ≤ i → i < words.length →
      split_score words tr (find_best_split_point words tr) ≤ split_score words tr i) ∧
    (∀ i, 1 ≤ i → i < find_best_split_point words tr →
      split_score words tr (find_best_split_point words tr) < split_score words tr i) := by
  unfold find_best_split_point
  rw [if_neg (by omega)]
  have hsplit : List.range' 1 (words.length - 1) = 1 :: List.range' 2 (words.length - 2) := by
    have he : words.length - 1 = (words.length - 2) + 1 := by omega
    rw [he, List.range'_succ]
  rw [hsplit]
  simp only [List.foldl_cons]
  have h0 : bestStep words tr none 1 = some (1, split_score words tr 1) := rfl
  rw [h0]
  have hpw : List.Pairwise (· < ·) (1 :: List.range' 2 (words.length - 2)) := by
    have := pairwise_lt_range1 1 (words.length - 1)
    rwa [hsplit] at this
  obtain ⟨r, hfold, hmem, hle, hall, hge1, hne, hfirst⟩ :=
    bestStep_go words tr (List.range' 2 (words.length - 2)) 1 hpw
  rw [hfold]
  dsimp only
  have hrange : 1 ≤ r ∧ r < words.length := by
    rcases hmem with rfl | hm
    · omega
    · rw [mem_range1] at hm
      omega
  rw [if_neg (by omega)]
  refine ⟨hrange, ?_, ?_⟩
  · intro i h1 h2
    rcases eq_or_lt_of_le h1 with rfl | hgt
    · exact hle
    · exact hall i (by rw [mem_range1]; omega)
  · intro i h1 h2
    rcases eq_or_lt_of_le h1 with rfl | hgt
    · exact hne (by omega)
    · exact hfirst i (by rw [mem_range1]; omega) h2

/-- Witness for C7 on a concrete two-word list at ratio 1/2. -/
theorem C7_witness :
    1 ≤ find_best_split_point ["ab".data, "cd".data] (1/2) ∧
      find_best_split_point ["ab".data, "cd".data] (1/2)
        < ([ "ab".data, "cd".data ] : List (List Char)).length :=
  (C7_find_best_split_point ["ab".data, "cd".data] (1/2) (by decide)).1
/-! ## C1 : the line-length cap of the balancer -/

theorem no_nl_of_no_space {c : Char} (h : pySpace c = false) : c ≠ '\n' := by
  intro hc
  subst hc
  simp [pySpace] at h

theorem joinSp_no_nl (ws : List (List Char))
    (h : ∀ w ∈ ws, ∀ c ∈ w, pySpace c = false) :
    ∀ c ∈ joinSp ws, c ≠ '\n' := by
  induction ws with
  | nil => intro c hc; simp [joinSp] at hc
  | cons w vs ih =>
    cases vs with
    | nil =>
      intro c hc
      exact no_nl_of_no_space (h w (List.mem_cons_self _ _) c hc)
    | cons v vs' =>
      intro c hc
      rw [show joinSp (w :: v :: vs') = w ++ ' ' :: joinSp (v :: vs') from rfl] at hc
      rcases List.mem_append.mp hc with hcw | hctail
      · exact no_nl_of_no_space (h w (List.mem_cons_self _ _) c hcw)
      · rcases List.mem_cons.mp hctail with rfl | hc2
        · decide
        · exact ih (fun u hu => h u (List.mem_cons_of_mem _ hu)) c hc2

theorem join_chunks_no_nl (t : List Char) (sel : List (List Char))
    (hsel : ∀ w ∈ sel, w ∈ pySplit t) :
    ∀ c ∈ joinSp sel, c ≠ '\n' :=
  joinSp_no_nl sel (fun w hw => (pySplit_chunks t w (hsel w hw)).2)

theorem normalize_no_nl (t : List Char) : ∀ c ∈ pyNormalize t, c ≠ '\n' :=
  join_chunks_no_nl t (pySplit t) (fun _ hw => hw)

theorem greedyFold_no_nl (ws : List (List Char)) :
    ∀ (acc : List Char), (∀ c ∈ acc, c ≠ '\n') →
      (∀ w ∈ ws, ∀ c ∈ w, c ≠ '\n') →
      ∀ c ∈ greedyFold acc ws, c ≠ '\n' := by
  induction ws with
  | nil => intro acc hacc _ c hc; exact hacc c hc
  | cons w vs ih =>
    intro acc hacc hws c hc
    unfold greedyFold at hc
    by_cases hfit : acc.length + w.length + 1 ≤ MAX_CHARS_PER_LINE
    · rw [if_pos hfit] at hc
      refine ih _ ?_ (fun u hu => hws u (List.mem_cons_of_mem _ hu)) c hc
      intro d hd
      by_cases hacc0 : acc.isEmpty
      · rw [if_pos hacc0] at hd
        exact hws w (List.mem_cons_self _ _) d hd
      · rw [if_neg hacc0] at hd
        rcases List.mem_append.mp hd with h1 | h2
        · exact hacc d h1
        · rcases List.mem_cons.mp h2 with rfl | h3
          · decide
          · exact hws w (List.mem_cons_self _ _) d h3
    · rw [if_neg hfit] at hc
      exact ih acc hacc (fun u hu => hws u (List.mem_cons_of_mem _ hu)) c hc

theorem pyLines_no_nl (t : List Char) (h : ∀ c ∈ t, c ≠ '\n') : pyLines t = [t] := by
  unfold pyLines
  exact splitP_no_sep _ t (fun c hc => by simp [h c hc])

theorem pyLines_pair (a b : List Char) (ha : ∀ c ∈ a, c ≠ '\n')
    (hb : ∀ c ∈ b, c ≠ '\n') : pyLines (a ++ '\n' :: b) = [a, b] := by
  unfold pyLines
  rw [splitP_append_sep _ a b '\n' (fun c hc => by simp [ha c hc]) (by decide)]
  rw [show splitP (fun c => decide (c = '\n')) b = [b] from
    splitP_no_sep _ b (fun c hc => by simp [hb c hc])]

theorem balanceRepair1_no_nl (line1 line2 : List Char) (ma : Nat)
    (h1 : ∀ c ∈ line1, c ≠ '\n') (h2 : ∀ c ∈ line2, c ≠ '\n') :
    (∀ c ∈ (balanceRepair1 line1 line2 ma).1, c ≠ '\n') ∧
    (∀ c ∈ (balanceRepair1 line1 line2 ma).2, c ≠ '\n') := by
  unfold balanceRepair1
  by_cases hc1 : line1.length > MAX_CHARS_PER_LINE ∧ 0 < ma
  · rw [if_pos hc1]
    by_cases hc2 : (pySplit line1).length ≥ 2
    · rw [if_pos hc2]
      refine ⟨join_chunks_no_nl line1 _ (fun w hw => List.mem_of_mem_take hw), ?_⟩
      intro c hcm
      rcases List.mem_append.mp hcm with hm1 | hm2
      · exact join_chunks_no_nl line1 _ (fun w hw => List.mem_of_mem_drop hw) c hm1
      · rcases List.mem_cons.mp hm2 with rfl | hm3
        · decide
        · exact h2 c hm3
    · rw [if_neg hc2]
      exact ⟨h1, h2⟩
  · rw [if_neg hc1]
    exact ⟨h1, h2⟩

theorem balanceRepair2_no_nl (line2 : List Char) (ma : Nat)
    (h2 : ∀ c ∈ line2, c ≠ '\n') :
    ∀ c ∈ balanceRepair2 line2 ma, c ≠ '\n' := by
  unfold balanceRepair2
  by_cases hc1 : line2.length > MAX_CHARS_PER_LINE ∧ 0 < ma
  · rw [if_pos hc1]
    by_cases hc2 : (pySplit line2).length ≥ 2
    · rw [if_pos hc2]
      exact greedyFold_no_nl (pySplit line2) [] (by simp)
        (fun w hw c hc => no_nl_of_no_space ((pySplit_chunks line2 w hw).2 c hc))
    · rw [if_neg hc2]
      exact h2
  · rw [if_neg hc1]
    exact h2

/-- C1 (amended): every line of the balancer's output is at most 42
characters, except (a) the single-word over-cap input, hard-broken at the cap
with a hyphen, and (b) inputs whose repaired lines still exceed the cap,
which fall back to the exact 50/50 word split (whose lines may exceed it). -/
theorem C1_line_cap (text : List Char) (ma : Nat) :
    (∀ l ∈ pyLines (balance_lines_recursive text ma), l.length ≤ MAX_CHARS_PER_LINE) ∨
    ((pySplit (pyNormalize text)).length < 2 ∧
      balance_lines_recursive text ma
        = (pyNormalize text).take MAX_CHARS_PER_LINE ++ '-' :: '\n' ::
            (pyNormalize text).drop MAX_CHARS_PER_LINE) ∨
    balance_lines_recursive text ma = fifty_fifty_split (pySplit (pyNormalize text)) := by
  by_cases hfit : (pyNormalize text).length ≤ MAX_CHARS_PER_LINE
  · left
    simp only [balance_lines_recursive, hfit, if_true]
    intro l hl
    rw [pyLines_no_nl _ (normalize_no_nl text)] at hl
    rcases List.mem_cons.mp hl with rfl | hem
    · exact hfit
    · simp at hem
  · by_cases hw : (pySplit (pyNormalize text)).length < 2
    · right
      left
      refine ⟨hw, ?_⟩
      simp only [balance_lines_recursive, hfit, hw, if_false, if_true]
      rw [if_pos (by omega)]
    · simp only [balance_lines_recursive, hfit, hw, if_false]
      set words := pySplit (pyNormalize text) with hwords
      set si := find_best_split_point words
        (get_dynamic_target_ratio (pyNormalize text).length) with hsi
      set l1 := joinSp (words.take si) with hl1
      set l2 := joinSp (words.drop si) with hl2
      have hn1 : ∀ c ∈ l1, c ≠ '\n' := by
        rw [hl1, hwords]
        exact join_chunks_no_nl (pyNormalize text) _ (fun w hw2 => List.mem_of_mem_take hw2)
      have hn2 : ∀ c ∈ l2, c ≠ '\n' := by
        rw [hl2, hwords]
        exact join_chunks_no_nl (pyNormalize text) _ (fun w hw2 => List.mem_of_mem_drop hw2)
      obtain ⟨hr1, hr2⟩ := balanceRepair1_no_nl l1 l2 ma hn1 hn2
      have hrb := balanceRepair2_no_nl (balanceRepair1 l1 l2 ma).2 ma hr2
      by_cases hok : (balanceRepair1 l1 l2 ma).1.length ≤ MAX_CHARS_PER_LINE ∧
          (balanceRepair2 (balanceRepair1 l1 l2 ma).2 ma).length ≤ MAX_CHARS_PER_LINE
      · left
        rw [if_pos hok]
        intro l hl
        rw [pyLines_pair _ _ hr1 hrb] at hl
        rcases List.mem_cons.mp hl with rfl | hl2m
        · exact hok.1
        · rcases List.mem_cons.mp hl2m with rfl | hl3
          · exact hok.2
          · simp at hl3
      · right
        right
        rw [if_neg hok]

/-- Two 43-character words separated by a space. -/
def c1text : List Char := List.replicate 43 'a' ++ ' ' :: List.replicate 43 'b'

unseal Rat.mul Rat.add Rat.sub Rat.inv in
/-- C1 counterexample: on two 43-character words (not a single-word input)
the balancer returns two lines of 43 characters each, both over the cap. -/
theorem C1_cex :
    (pySplit (pyNormalize c1text)).length = 2 ∧
      (pyLines (balance_lines_recursive c1text 5)).map List.length = [43, 43] :=
  ⟨by decide, by decide⟩
/-! ## C5 : the pipeline is not idempotent -/

theorem renumberGo_idem (l : List Subtitle) :
    ∀ i, renumberGo i (renumberGo i l) = renumberGo i l := by
  induction l with
  | nil => intro i; rfl
  | cons s rest ih => intro i; simp [renumberGo, ih (i + 1)]

theorem renumber_idem (l : List Subtitle) :
    renumber_subtitles (renumber_subtitles l) = renumber_subtitles l :=
  renumberGo_idem l 0

/-- C5 (amended): a second pipeline pass is a no-op exactly when every phase
already fixes the first pass's output — no cue still needs a block split, the
line balancer leaves every text unchanged, and the duration extender changes
nothing; renumbering is always idempotent.  (In general the second pass is
NOT a no-op: see the counterexample.) -/
theorem C5_pipeline_conditional_idempotence (xs : List Subtitle)
    (h1 : (((fix_srt_pipeline xs).map (fun sub =>
          if needs_block_split sub then split_subtitle_block sub else [sub])).flatten)
        = fix_srt_pipeline xs)
    (h2 : (fix_srt_pipeline xs).map fix_line_lengths = fix_srt_pipeline xs)
    (h3 : extendAll (fix_srt_pipeline xs) = fix_srt_pipeline xs) :
    fix_srt_pipeline (fix_srt_pipeline xs) = fix_srt_pipeline xs := by
  obtain ⟨zs, hzs⟩ : ∃ zs, fix_srt_pipeline xs = renumber_subtitles zs := ⟨_, rfl⟩
  calc fix_srt_pipeline (fix_srt_pipeline xs)
      = renumber_subtitles (extendAll (((((fix_srt_pipeline xs)).map (fun sub =>
          if needs_block_split sub then split_subtitle_block sub
          else [sub])).flatten).map fix_line_lengths)) := rfl
    _ = renumber_subtitles (extendAll ((fix_srt_pipeline xs).map fix_line_lengths)) := by
          rw [h1]
    _ = renumber_subtitles (extendAll (fix_srt_pipeline xs)) := by rw [h2]
    _ = renumber_subtitles (fix_srt_pipeline xs) := by rw [h3]
    _ = renumber_subtitles (renumber_subtitles zs) := by rw [hzs]
    _ = renumber_subtitles zs := renumber_idem zs
    _ = fix_srt_pipeline xs := hzs.symm

/-- Nine 8-character words (80 characters): within the block cap, but the
balancer's second repair pass drops a word on the first pass and re-splits
differently on the second. -/
def c5cue : Subtitle :=
  ⟨1, 0, 5000,
    ("wwwwwwww wwwwwwww wwwwwwww wwwwwwww wwwwwwww wwwwwwww wwwwwwww wwwwwwww wwwwwwww").data⟩

unseal Rat.mul Rat.add Rat.sub Rat.inv in
/-- C5 counterexample: running the pipeline a second time on its own output
changes the text of the cue (the first pass yields a 35/35 two-line layout
after silently dropping one word; the second pass re-balances it to 26/35,
dropping another word). -/
theorem C5_cex :
    fix_srt_pipeline (fix_srt_pipeline [c5cue]) ≠ fix_srt_pipeline [c5cue] ∧
      (fix_srt_pipeline (fix_srt_pipeline [c5cue])).map (fun s => s.char_count)
        ≠ (fix_srt_pipeline [c5cue]).map (fun s => s.char_count) :=
  ⟨by decide, by decide⟩

unseal Rat.mul Rat.add Rat.sub Rat.inv in
/-- Witness for C5's conditional idempotence on a short, already-clean cue. -/
theorem C5_witness :
    fix_srt_pipeline (fix_srt_pipeline [⟨1, 0, 5000, "Hello".data⟩])
      = fix_srt_pipeline [⟨1, 0, 5000, "Hello".data⟩] :=
  C5_pipeline_conditional_idempotence [⟨1, 0, 5000, "Hello".data⟩]
    (by decide) (by decide) (by decide)
/-! ## C9 : which blocks the reader excludes -/

/-- C9 (amended): the reader skips a block iff it is malformed — fewer than
3 lines, an unparsable index line, an unparsable timestamp line — **or** its
text is a single-character transcription artifact
(`'.'`, `'-'`, `'?'`, `'!'`, `','` after stripping). -/
theorem C9_parse_block_none_iff (block : List Char) :
    parse_block block = none ↔
      ((pyLines (pyStrip block)).length < 3 ∨
        pyParseInt (pyStrip ((pyLines (pyStrip block)).getD 0 [])) = none ∨
        parseTimestampLine (pyStrip ((pyLines (pyStrip block)).getD 1 [])) = none ∨
        is_single_char_artifact (joinNl ((pyLines (pyStrip block)).drop 2)) = true) := by
  unfold parse_block
  cases hls : pyLines (pyStrip block) with
  | nil => simp
  | cons l0 t0 =>
    cases t0 with
    | nil => simp
    | cons l1 t1 =>
      cases t1 with
      | nil => simp
      | cons l2 rest =>
        cases hpi : pyParseInt (pyStrip l0) with
        | none => simp [hpi]
        | some idx =>
          cases hts : parseTimestampLine (pyStrip l1) with
          | none => simp [hpi, hts]
          | some p =>
            obtain ⟨sv, ev⟩ := p
            by_cases hart : is_single_char_artifact (joinNl (l2 :: rest)) = true
            · simp [hpi, hts, hart]
            · simp [hpi, hts, hart]

/-- A fully well-formed SRT block whose text is the single character `.`. -/
def c9block : List Char := ("1\n00:00:00,000 --> 00:00:01,000\n.").data

/-- C9 counterexample: `c9block` has 3 lines, a parsable index and parsable
timestamps, yet the reader excludes it (single-char artifact filtering), so
"excluded iff malformed" is false. -/
theorem C9_cex :
    parse_block c9block = none ∧
      (pyLines (pyStrip c9block)).length = 3 ∧
      pyParseInt (pyStrip ((pyLines (pyStrip c9block)).getD 0 [])) = some 1 ∧
      parseTimestampLine (pyStrip ((pyLines (pyStrip c9block)).getD 1 []))
        = some (0, 1000) :=
  ⟨by decide, by decide, by decide, by decide⟩
